import Mathlib

/-!
Verification of the table-editor coupling rules and widget invariants of the
bluesky-ui repository (src/bluesky_ui/widgets.py), via a shallow embedding.

Python values that appear in table cells are modelled by the inductive type
Val; Python dicts by insertion-ordered association lists with first-match
lookup; Python floats carry no arithmetic here (only comparisons against
limit values), so they are modelled exactly as rationals; fallible Python
code (expressions that can raise, such as ordering comparisons involving
None) is modelled in Except String.
-/

namespace BlueskyUI

/-- Decidable equality on Except results, used to state concrete evaluations. -/
instance {ε α : Type} [DecidableEq ε] [DecidableEq α] : DecidableEq (Except ε α) := fun a b =>
  match a, b with
  | .ok x, .ok y =>
    if h : x = y then isTrue (by rw [h]) else isFalse (by intro hc; cases hc; exact h rfl)
  | .ok _, .error _ => isFalse (by intro hc; cases hc)
  | .error _, .ok _ => isFalse (by intro hc; cases hc)
  | .error e, .error f =>
    if h : e = f then isTrue (by rw [h]) else isFalse (by intro hc; cases hc; exact h rfl)

/-- Device stand-in: a simulated detector or motor object, exposing a name
and optionally a limits pair.  getattr with a default models attribute
absence via Option. -/
structure Device where
  name : String
  limits : Option (ℚ × ℚ)
deriving DecidableEq

/-- A Python value as stored in a table cell. -/
inductive Val where
  | none
  | num (q : ℚ)
  | bool (b : Bool)
  | str (s : String)
  | device (d : Device)
deriving DecidableEq

/-- Python dict with string keys: insertion-ordered association list. -/
abbrev Dict := List (String × Val)

/-- Dict lookup, first matching key. -/
def dictGet (d : Dict) (k : String) : Option Val :=
  match d with
  | [] => Option.none
  | (k0, v) :: rest => if k0 = k then some v else dictGet rest k

/-- Python in-operator on dict keys. -/
def dictMember (d : Dict) (k : String) : Bool :=
  (dictGet d k).isSome

/-- Python subscript assignment: replace the value at an existing key in
place, else append the new pair at the end. -/
def dictSet (d : Dict) (k : String) (v : Val) : Dict :=
  match d with
  | [] => [(k, v)]
  | (k0, v0) :: rest => if k0 = k then (k0, v) :: rest else (k0, v0) :: dictSet rest k v

/-- The Python dict display with two double-star expansions, as in
new = (copy of c, then each pair of r assigned in order). -/
def dictMerge (c r : Dict) : Dict :=
  r.foldl (fun acc p => dictSet acc p.1 p.2) c

/-- getattr(motor, "limits", (0, 0)) for an arbitrary cell value. -/
def limitsOf (v : Val) : ℚ × ℚ :=
  match v with
  | .device d => d.limits.getD (0, 0)
  | _ => (0, 0)

/-- Numeric view used by Python ordering comparisons: ints/floats compare
as numbers, and bools compare as the numbers 0 and 1. -/
def pyNum? (v : Val) : Option ℚ :=
  match v with
  | .num q => some q
  | .bool b => some (if b then 1 else 0)
  | _ => Option.none

/-- The Python comparison a < b, raising TypeError on unsupported operand
types (in particular when either side is None). -/
def pyLt (a b : Val) : Except String Bool :=
  match pyNum? a, pyNum? b with
  | some x, some y => .ok (x < y)
  | _, _ =>
    match a, b with
    | .str s, .str t => .ok (decide (s < t))
    | _, _ => .error "TypeError"

/-- Python truthiness of a cell value. -/
def pyTruthy (v : Val) : Bool :=
  match v with
  | .none => false
  | .num q => if q = 0 then false else true
  | .bool b => b
  | .str s => if s = "" then false else true
  | .device _ => true

/-- The short-circuit test (current < limits[0] or current > limits[1]) at
line 233 of widgets.py; raises when current is not comparable (e.g. None). -/
def checkOutside (v : Val) (lo hi : ℚ) : Except String Bool := do
  let lt ← pyLt v (Val.num lo)
  if lt then
    pure true
  else
    pyLt (Val.num hi) v

/-- Position columns examined by the coupled-parameter update. -/
def posCols : List String := ["start", "stop", "value"]

/-- The for-loop at lines 231-235 of widgets.py: for each listed column,
reset the merged value to None when the current value is outside the new
limits. -/
def resetFold (current : Dict) (lo hi : ℚ) : List String → Dict → Except String Dict
  | [], acc => .ok acc
  | c :: rest, acc => do
    let outside ← checkOutside ((dictGet current c).getD Val.none) lo hi
    resetFold current lo hi rest (if outside then dictSet acc c Val.none else acc)

/-- The snake block at lines 237-242 of widgets.py: for row 0 force the
snake value to None, otherwise coerce a falsy snake value to False. -/
def snakeUpdate (d : Dict) (row : Int) : Dict :=
  if dictMember d "snake" then
    if row = 0 then dictSet d "snake" Val.none
    else if pyTruthy ((dictGet d "snake").getD Val.none) then d
    else dictSet d "snake" (Val.bool false)
  else d

/-- bs_motor_update_coupled_parameters (widgets.py lines 202-244): merge the
requested update into the current row, reset position columns that fall
outside a newly selected motor limits, then normalise the snake column. -/
def bs_motor_update_coupled_parameters (requested_parameters current_parameters : Dict)
    (row : Int) : Except String Dict :=
  let new_parameters := dictMerge current_parameters requested_parameters
  let afterReset : Except String Dict :=
    match dictGet requested_parameters "motor" with
    | Option.none => .ok new_parameters
    | some motor =>
      let limits := limitsOf motor
      if limits = ((0 : ℚ), (0 : ℚ)) then .ok new_parameters
      else
        resetFold current_parameters limits.1 limits.2
          (posCols.filter (fun n => dictMember current_parameters n)) new_parameters
  afterReset.map (fun d => snakeUpdate d row)

/-!
Stateful rendering of bs_motor_update_coupled_parameters, used to express its
frame property: the Python function receives references to two caller-owned
dicts and builds a fresh merged dict; every subscript assignment in the body
targets only the fresh dict.  Here the three dict objects are threaded
explicitly through each statement, and the final values of the two input
dicts are returned alongside the result.
-/

/-- The local state of a call: the two argument dicts and the fresh
new_parameters dict created at line 224 of widgets.py. -/
structure PyState where
  requested_parameters : Dict
  current_parameters : Dict
  new_parameters : Dict

/-- The reset for-loop as a state transformer; returns the state reached
when an exception aborts the loop. -/
def resetFoldSt : List String → PyState → ℚ → ℚ → PyState × Option String
  | [], s, _, _ => (s, Option.none)
  | c :: rest, s, lo, hi =>
    match checkOutside ((dictGet s.current_parameters c).getD Val.none) lo hi with
    | .error e => (s, some e)
    | .ok outside =>
      resetFoldSt rest
        (if outside then { s with new_parameters := dictSet s.new_parameters c Val.none } else s)
        lo hi

/-- The whole call as a state transformer: returns the final values of the
two argument dicts together with the returned merged row (or the exception). -/
def statefulRun (req cur : Dict) (row : Int) : Dict × Dict × Except String Dict :=
  let s0 : PyState := ⟨req, cur, dictMerge cur req⟩
  let step : PyState × Option String :=
    match dictGet s0.requested_parameters "motor" with
    | Option.none => (s0, Option.none)
    | some motor =>
      let limits := limitsOf motor
      if limits = ((0 : ℚ), (0 : ℚ)) then (s0, Option.none)
      else
        resetFoldSt (posCols.filter (fun n => dictMember s0.current_parameters n))
          s0 limits.1 limits.2
  match step with
  | (s1, some e) => (s1.requested_parameters, s1.current_parameters, .error e)
  | (s1, Option.none) =>
    let s2 : PyState := { s1 with new_parameters := snakeUpdate s1.new_parameters row }
    (s2.requested_parameters, s2.current_parameters, .ok s2.new_parameters)

/-!
UniqueValidator and table_unique_mtext_factory (widgets.py lines 24-64).
The Qt model column is represented by the list of its per-row display
values; the factory collects the values of every row other than the row
being edited.
-/

/-- The three QValidator verdicts. -/
inductive QValidatorState where
  | Invalid
  | Intermediate
  | Acceptable
deriving DecidableEq

/-- A QValidator that holds a list of forbidden strings. -/
structure UniqueValidator where
  invalid_list : List String

/-- UniqueValidator.validate (widgets.py lines 32-36). -/
def UniqueValidator.validate (v : UniqueValidator) (inputStr : String) (pos : Nat) :
    QValidatorState × String × Nat :=
  if inputStr ∈ v.invalid_list then (.Invalid, inputStr, pos)
  else (.Acceptable, inputStr, pos)

/-- table_unique_mtext_factory (widgets.py lines 44-64): build the validator
whose invalid list holds the display value of every row of the edited column
except the currently selected row. -/
def table_unique_mtext_factory (column_values : List String) (cur_row : Nat) :
    UniqueValidator :=
  ⟨(List.range column_values.length).filterMap
    (fun r => if r = cur_row then Option.none else column_values.get? r)⟩

/-!
table_mcombobox_factory (widgets.py lines 90-130).  The table rows are the
list of per-row parameter dicts returned by table.get_parameters()[name];
item.get(key) is dict lookup defaulting to None, kept when truthy.  The
editor items are a Python dict comprehension keyed by device name.
-/

/-- The selected_items list comprehension at lines 124-126 of widgets.py. -/
def selected_items (rows : List Dict) (key : String) : List Val :=
  rows.filterMap
    (fun item =>
      let v := (dictGet item key).getD Val.none
      if pyTruthy v then some v else Option.none)

/-- Insertion into the items dict of the comprehension (string keys). -/
def namedInsert (acc : List (String × Device)) (k : String) (d : Device) :
    List (String × Device) :=
  match acc with
  | [] => [(k, d)]
  | (k0, d0) :: rest =>
    if k0 = k then (k0, d) :: rest else (k0, d0) :: namedInsert rest k d

/-- The items dict comprehension at lines 127-129 of widgets.py: options not
present in selected_items, keyed by their name attribute. -/
def table_mcombobox_factory (option_list : List Device) (rows : List Dict)
    (key : String) : List (String × Device) :=
  option_list.foldl
    (fun acc item =>
      if Val.device item ∈ selected_items rows key then acc
      else namedInsert acc item.name item)
    []

/-- The devices offered by the returned combo editor. -/
def comboOffered (option_list : List Device) (rows : List Dict) (key : String) :
    List Device :=
  (table_mcombobox_factory option_list rows key).map Prod.snd

/-!
Qt spin boxes, modelled by their documented contract: a spin box holds a
range and a value, and every operation clamps the value into the range;
setMinimum raises the maximum to the new minimum when needed, setRange
does the same.  MISpin wraps an integer QSpinBox (default range 0-99,
default value 0) and MFSpin a QDoubleSpinBox (default range 0.0-99.99,
default value 0); the mily get_parameters call reports the held value.
-/

/-- Integer spin box state. -/
structure MISpin where
  minimum : Int
  maximum : Int
  value : Int
deriving DecidableEq

/-- Clamp an integer into a range. -/
def clampInt (lo hi v : Int) : Int := max lo (min hi v)

/-- Default-constructed QSpinBox. -/
def MISpin.init : MISpin := ⟨0, 99, 0⟩

/-- QSpinBox.setValue: the stored value is clamped into the range. -/
def MISpin.setValue (s : MISpin) (v : Int) : MISpin :=
  { s with value := clampInt s.minimum s.maximum v }

/-- QSpinBox.setMinimum: raises the maximum if it falls below the new
minimum, and re-clamps the value. -/
def MISpin.setMinimum (s : MISpin) (m : Int) : MISpin :=
  let maximum := max s.maximum m
  ⟨m, maximum, clampInt m maximum s.value⟩

/-- QSpinBox.setRange. -/
def MISpin.setRange (s : MISpin) (lo hi : Int) : MISpin :=
  let maximum := max lo hi
  ⟨lo, maximum, clampInt lo maximum s.value⟩

/-- Float spin box state (values are exact here: only comparisons occur). -/
structure MFSpin where
  minimum : ℚ
  maximum : ℚ
  value : ℚ
deriving DecidableEq

/-- Clamp a rational into a range. -/
def clampRat (lo hi v : ℚ) : ℚ := max lo (min hi v)

/-- Default-constructed QDoubleSpinBox. -/
def MFSpin.init : MFSpin := ⟨0, 9999 / 100, 0⟩

/-- QDoubleSpinBox.setValue. -/
def MFSpin.setValue (s : MFSpin) (v : ℚ) : MFSpin :=
  { s with value := clampRat s.minimum s.maximum v }

/-- QDoubleSpinBox.setRange. -/
def MFSpin.setRange (s : MFSpin) (lo hi : ℚ) : MFSpin :=
  let maximum := max lo hi
  ⟨lo, maximum, clampRat lo maximum s.value⟩

/-!
MoverRanger (widgets.py lines 316-366): a labelled pair of float spin boxes
and an integer steps spin box, optionally bound to a mover device.
-/

/-- MoverRanger widget state: the bound device and the three spin boxes. -/
structure MoverRanger where
  mover : Option Device
  lower : MFSpin
  upper : MFSpin
  steps : MISpin
deriving DecidableEq

/-- MoverRanger.set_mover (widgets.py lines 343-357): bind the device and,
when it carries non-default limits, clamp both float spin ranges to them. -/
def MoverRanger.set_mover (r : MoverRanger) (mover : Device) : MoverRanger :=
  let limits := mover.limits.getD (0, 0)
  if limits = ((0 : ℚ), (0 : ℚ)) then { r with mover := some mover }
  else
    { r with
      mover := some mover,
      lower := r.lower.setRange limits.1 limits.2,
      upper := r.upper.setRange limits.1 limits.2 }

/-- MoverRanger.__init__ (widgets.py lines 317-341): fresh spin boxes, the
steps box set to the requested count and then given minimum 1, then the
optional initial device bound. -/
def MoverRanger.construct (mover : Option Device) (steps : Int) : MoverRanger :=
  let base : MoverRanger :=
    { mover := Option.none,
      lower := MFSpin.init,
      upper := MFSpin.init,
      steps := (MISpin.init.setValue steps).setMinimum 1 }
  match mover with
  | Option.none => base
  | some m => base.set_mover m

/-- MoverRanger.get_args (widgets.py lines 362-366). -/
def MoverRanger.get_args (r : MoverRanger) : Option Device × ℚ × ℚ × Int :=
  (r.mover, r.lower.value, r.upper.value, r.steps.value)

/-- The MoverRanger states reachable in the GUI: construction, rebinding the
device, and user edits of the three spin boxes. -/
inductive MoverRangerReachable : MoverRanger → Prop where
  | construct (mover : Option Device) (steps : Int) :
      MoverRangerReachable (MoverRanger.construct mover steps)
  | set_mover (r : MoverRanger) (m : Device) (h : MoverRangerReachable r) :
      MoverRangerReachable (r.set_mover m)
  | editLower (r : MoverRanger) (v : ℚ) (h : MoverRangerReachable r) :
      MoverRangerReachable { r with lower := r.lower.setValue v }
  | editUpper (r : MoverRanger) (v : ℚ) (h : MoverRangerReachable r) :
      MoverRangerReachable { r with upper := r.upper.setValue v }
  | editSteps (r : MoverRanger) (v : Int) (h : MoverRangerReachable r) :
      MoverRangerReachable { r with steps := r.steps.setValue v }

/-!
MotorSelector.set_active_motor (widgets.py lines 429-438): index into the
list of MoverRanger widgets with Python list semantics (negative indices
count from the end, anything else raises IndexError), set the active widget
and make it the only visible one; the except-IndexError handler discards
the exception and leaves everything untouched.
-/

/-- Python list indexing: valid for -len <= n < len, with negative wrap. -/
def pyListIndex (len : Nat) (n : Int) : Option Nat :=
  if 0 ≤ n then
    if n < (len : Int) then some n.toNat else Option.none
  else
    if -(len : Int) ≤ n then some (n + (len : Int)).toNat else Option.none

/-- MotorSelector widget state: the per-motor widgets are identified by
index; visible i records the visibility of widget i. -/
structure MotorSelectorState where
  numMotors : Nat
  active_motor : Option Nat
  visible : List Bool
deriving DecidableEq

/-- The try-block of MotorSelector.set_active_motor (lines 430-435). -/
def set_active_motor_body (s : MotorSelectorState) (n : Int) :
    Except String MotorSelectorState :=
  match pyListIndex s.numMotors n with
  | Option.none => .error "IndexError"
  | some i =>
    .ok { s with
          active_motor := some i,
          visible := (List.range s.numMotors).map (fun j => j == i) }

/-- MotorSelector.set_active_motor (lines 429-438): the IndexError handler
swallows the exception. -/
def set_active_motor (s : MotorSelectorState) (n : Int) : MotorSelectorState :=
  match set_active_motor_body s n with
  | .ok s1 => s1
  | .error _ => s

/-!
Count (widgets.py lines 497-547): a num spin box with range 1 to 2^16, a
delay float spin box with range 0 to 3600 that starts disabled and follows
a checkbox, and get_plan passing num and (value or None) to the plan.
-/

/-- Count widget state. -/
structure CountState where
  num_spin : MISpin
  delay_spin : MFSpin
  delay_enabled : Bool
deriving DecidableEq

/-- Count.__init__ (lines 498-536): ranges set as in the source, delay
spinner initially disabled. -/
def CountState.construct : CountState :=
  { num_spin := MISpin.init.setRange 1 (2 ^ 16),
    delay_spin := MFSpin.init.setRange 0 (60 * 60),
    delay_enabled := false }

/-- The Count states reachable in the GUI: construction, user edits of the
two spin boxes, and toggling the delay checkbox. -/
inductive CountReachable : CountState → Prop where
  | construct : CountReachable CountState.construct
  | editNum (s : CountState) (v : Int) (h : CountReachable s) :
      CountReachable { s with num_spin := s.num_spin.setValue v }
  | editDelay (s : CountState) (v : ℚ) (h : CountReachable s) :
      CountReachable { s with delay_spin := s.delay_spin.setValue v }
  | toggleDelay (s : CountState) (b : Bool) (h : CountReachable s) :
      CountReachable { s with delay_enabled := b }

/-- The num and delay arguments Count.get_plan (lines 538-547) passes to the
plan function: the num spinner value, and the delay spinner value when the
spinner is enabled, else None. -/
def CountState.get_plan_args (s : CountState) : Int × Option ℚ :=
  (s.num_spin.value, if s.delay_enabled then some s.delay_spin.value else Option.none)

/-! Helper lemmas on the dict model. -/

theorem dictGet_set_self (d : Dict) (k : String) (v : Val) :
    dictGet (dictSet d k v) k = some v := by
  induction d with
  | nil => simp [dictSet, dictGet]
  | cons p rest ih =>
    obtain ⟨k0, v0⟩ := p
    by_cases h : k0 = k
    · simp [dictSet, dictGet, h]
    · simp [dictSet, dictGet, h, ih]

theorem dictGet_set_ne (d : Dict) (k k1 : String) (v : Val) (h : k1 ≠ k) :
    dictGet (dictSet d k v) k1 = dictGet d k1 := by
  induction d with
  | nil => simp [dictSet, dictGet, Ne.symm h]
  | cons p rest ih =>
    obtain ⟨k0, v0⟩ := p
    by_cases h0 : k0 = k
    · subst h0
      simp [dictSet, dictGet, Ne.symm h]
    · by_cases h1 : k0 = k1 <;> simp [dictSet, dictGet, h0, h1, h, ih]

theorem dictGet_merge_not_mem (r : Dict) :
    ∀ (c : Dict) (k : String), dictMember r k = false →
      dictGet (dictMerge c r) k = dictGet c k := by
  induction r with
  | nil => intro c k _; rfl
  | cons p rest ih =>
    intro c k h
    obtain ⟨k0, v0⟩ := p
    have hne : k0 ≠ k := by
      intro hc
      subst hc
      simp [dictMember, dictGet] at h
    have hrest : dictMember rest k = false := by
      simpa [dictMember, dictGet, hne] using h
    calc dictGet (dictMerge c ((k0, v0) :: rest)) k
        = dictGet (dictMerge (dictSet c k0 v0) rest) k := rfl
      _ = dictGet (dictSet c k0 v0) k := ih (dictSet c k0 v0) k hrest
      _ = dictGet c k := dictGet_set_ne c k0 k v0 (fun hc => hne hc.symm)

theorem snakeUpdate_get_ne (d : Dict) (row : Int) (k : String) (h : k ≠ "snake") :
    dictGet (snakeUpdate d row) k = dictGet d k := by
  unfold snakeUpdate
  by_cases hm : dictMember d "snake" = true
  · by_cases hr : row = 0
    · simp [hm, hr, dictGet_set_ne d "snake" k Val.none h]
    · by_cases ht : pyTruthy ((dictGet d "snake").getD Val.none) = true
      · simp [hm, hr, ht]
      · simp [hm, hr, ht, dictGet_set_ne d "snake" k (Val.bool false) h]
  · simp [hm]

/-- Behaviour of the reset loop when every listed column holds a numeric
current value: the loop succeeds, columns whose current value is outside
the limits end up None, and every other key keeps its incoming value. -/
theorem resetFold_spec (cur : Dict) (lo hi : ℚ) :
    ∀ (L : List String) (acc : Dict),
      (∀ c ∈ L, ∃ q : ℚ, dictGet cur c = some (Val.num q)) →
      ∃ d, resetFold cur lo hi L acc = .ok d ∧
        (∀ k ∈ L, ∀ q : ℚ, dictGet cur k = some (Val.num q) → (q < lo ∨ hi < q) →
          dictGet d k = some Val.none) ∧
        (∀ k, (k ∉ L ∨ ∃ q : ℚ, dictGet cur k = some (Val.num q) ∧ lo ≤ q ∧ q ≤ hi) →
          dictGet d k = dictGet acc k) := by
  intro L
  induction L with
  | nil =>
    intro acc _
    exact ⟨acc, rfl, by simp, fun k _ => rfl⟩
  | cons c rest ih =>
    intro acc hnum
    obtain ⟨q, hq⟩ := hnum c (List.mem_cons_self c rest)
    have hog : checkOutside ((dictGet cur c).getD Val.none) lo hi
        = .ok (decide (q < lo) || decide (hi < q)) := by
      rw [hq]
      by_cases h1 : q < lo <;>
        simp [checkOutside, pyLt, pyNum?, h1, Bind.bind, Except.bind, pure, Except.pure]
    have hstep : resetFold cur lo hi (c :: rest) acc
        = resetFold cur lo hi rest
            (if q < lo ∨ hi < q then dictSet acc c Val.none else acc) := by
      simp [resetFold, hog, Bind.bind, Except.bind]
    obtain ⟨d, hok, h1, h2⟩ :=
      ih (if q < lo ∨ hi < q then dictSet acc c Val.none else acc)
        (fun c1 hc1 => hnum c1 (List.mem_cons_of_mem c hc1))
    refine ⟨d, hstep.trans hok, ?_, ?_⟩
    · intro k hk q1 hq1 hout
      rcases List.mem_cons.mp hk with hkc | hkrest
      · subst hkc
        have hqq : q1 = q := Val.num.inj (Option.some.inj (hq1.symm.trans hq))
        subst hqq
        by_cases hcr : k ∈ rest
        · exact h1 k hcr q1 hq1 hout
        · rw [h2 k (Or.inl hcr), if_pos hout]
          exact dictGet_set_self acc k Val.none
      · exact h1 k hkrest q1 hq1 hout
    · intro k hk
      rcases hk with hk | hk
      · have hkc : k ≠ c := fun hc => hk (hc ▸ List.mem_cons_self c rest)
        have hkr : k ∉ rest := fun hc => hk (List.mem_cons_of_mem c hc)
        rw [h2 k (Or.inl hkr)]
        by_cases hob : q < lo ∨ hi < q
        · rw [if_pos hob]
          exact dictGet_set_ne acc c k Val.none hkc
        · rw [if_neg hob]
      · obtain ⟨q1, hq1, hlo, hhi⟩ := hk
        rw [h2 k (Or.inr ⟨q1, hq1, hlo, hhi⟩)]
        by_cases hkc : k = c
        · subst hkc
          have hqq : q1 = q := Val.num.inj (Option.some.inj (hq1.symm.trans hq))
          subst hqq
          have hob : ¬(q1 < lo ∨ hi < q1) := by
            push_neg
            exact ⟨hlo, hhi⟩
          rw [if_neg hob]
        · by_cases hob : q < lo ∨ hi < q
          · rw [if_pos hob]
            exact dictGet_set_ne acc c k Val.none hkc
          · rw [if_neg hob]

/-- Inversion for Except.map producing an ok result. -/
theorem exceptMap_ok {α : Type} {f : α → α} {e : Except String α} {d : α}
    (h : e.map f = .ok d) : ∃ a, e = .ok a ∧ d = f a := by
  cases e with
  | ok a =>
    refine ⟨a, rfl, ?_⟩
    have : Except.ok (f a) = (Except.ok d : Except String α) := h
    exact (Except.ok.inj this).symm
  | error e => exact absurd h (by simp [Except.map])

/-- C2: the claim that bs_motor_update_coupled_parameters never raises is
wrong on the code: when a current start value is unset (None) and the
requested update selects a motor with non-default limits, the comparison of
None against the lower limit raises TypeError.  This theorem evaluates the
function at that failing input. -/
theorem bs_motor_update_raises_on_none_position :
    bs_motor_update_coupled_parameters
        [("motor", Val.device (Device.mk "M2" (some (0, 10))))]
        [("motor", Val.device (Device.mk "M1" (some (0, 10)))), ("start", Val.none)]
        1
      = Except.error "TypeError" := by decide

/-- C1 counterexample: when the requested update changes the motor (to M2,
limits (0, 10)) and at the same time assigns start the value 7, the current
start value 5 lies inside the new limits, yet the merged row carries the
requested 7, not the current 5 — so an in-limits column does not always keep
its current value. -/
theorem bs_motor_update_inside_limits_not_kept_counterexample :
    bs_motor_update_coupled_parameters
        [("motor", Val.device (Device.mk "M2" (some (0, 10)))), ("start", Val.num 7)]
        [("motor", Val.device (Device.mk "M1" (some (0, 10)))), ("start", Val.num 5)]
        1
      = Except.ok
          [("motor", Val.device (Device.mk "M2" (some (0, 10)))), ("start", Val.num 7)] ∧
    limitsOf (Val.device (Device.mk "M2" (some (0, 10)))) = (0, 10) ∧
    ¬(((0 : ℚ), (10 : ℚ)) = ((0 : ℚ), (0 : ℚ))) ∧
    dictGet [("motor", Val.device (Device.mk "M1" (some (0, 10)))),
             ("start", Val.num 5)] "start" = some (Val.num 5) ∧
    (0 : ℚ) ≤ 5 ∧ (5 : ℚ) ≤ 10 ∧
    dictGet [("motor", Val.device (Device.mk "M2" (some (0, 10)))),
             ("start", Val.num 7)] "start" ≠ some (Val.num 5) := by
  decide

/-- C7: calling MotorSelector.set_active_motor with an index that is out of
range for the motor list (in Python list terms: below -len or at or above
len) raises IndexError inside the try block, the handler swallows it, and
the selector state — active motor and widget visibility — is unchanged. -/
theorem set_active_motor_out_of_range_ignored (s : MotorSelectorState) (n : Int)
    (h : n < -(s.numMotors : Int) ∨ (s.numMotors : Int) ≤ n) :
    set_active_motor_body s n = .error "IndexError" ∧ set_active_motor s n = s := by
  have hidx : pyListIndex s.numMotors n = Option.none := by
    rcases h with h | h
    · have h0 : ¬(0 ≤ n) := by omega
      have h1 : ¬(-(s.numMotors : Int) ≤ n) := by omega
      simp [pyListIndex, h0, h1]
    · have h0 : 0 ≤ n := by omega
      have h1 : ¬(n < (s.numMotors : Int)) := by omega
      simp [pyListIndex, h0, h1]
  refine ⟨?_, ?_⟩
  · simp [set_active_motor_body, hidx]
  · simp [set_active_motor, set_active_motor_body, hidx]

/-- Witness for C7: a selector with two motors, asked for index 5. -/
theorem set_active_motor_out_of_range_ignored_witness :
    set_active_motor_body ⟨2, some 0, [true, false]⟩ 5 = .error "IndexError" ∧
    set_active_motor ⟨2, some 0, [true, false]⟩ 5 = ⟨2, some 0, [true, false]⟩ :=
  set_active_motor_out_of_range_ignored ⟨2, some 0, [true, false]⟩ 5 (Or.inr (by decide))

/-- set_mover leaves the steps spin box untouched. -/
theorem set_mover_steps (r : MoverRanger) (m : Device) :
    (r.set_mover m).steps = r.steps := by
  simp only [MoverRanger.set_mover]
  split <;> rfl

/-- Invariant of the steps spin box of every reachable MoverRanger: its
minimum is 1 (as set in the constructor), its range is sound, and its value
never falls below 1. -/
theorem moverRanger_steps_invariant (r : MoverRanger) (h : MoverRangerReachable r) :
    r.steps.minimum = 1 ∧ r.steps.minimum ≤ r.steps.maximum ∧ 1 ≤ r.steps.value := by
  induction h with
  | construct mover steps =>
    have hsteps : (MoverRanger.construct mover steps).steps
        = (MISpin.init.setValue steps).setMinimum 1 := by
      cases mover with
      | none => rfl
      | some m => exact set_mover_steps _ m
    rw [hsteps]
    refine ⟨rfl, ?_, ?_⟩
    · exact le_max_right 99 1
    · exact le_max_left 1 _
  | set_mover r m _ ih => rw [set_mover_steps r m]; exact ih
  | editLower r v _ ih => exact ih
  | editUpper r v _ ih => exact ih
  | editSteps r v _ ih =>
    obtain ⟨hmin, hrange, _⟩ := ih
    refine ⟨hmin, hrange, ?_⟩
    show 1 ≤ clampInt r.steps.minimum r.steps.maximum v
    rw [hmin]
    exact le_max_left 1 _

/-- C8: the step count returned as the fourth component of
MoverRanger.get_args is an integer at least 1, in every reachable state of
the widget. -/
theorem mover_ranger_steps_at_least_one (r : MoverRanger)
    (h : MoverRangerReachable r) : 1 ≤ r.get_args.2.2.2 :=
  (moverRanger_steps_invariant r h).2.2

/-- Witness for C8: a freshly constructed, unbound MoverRanger. -/
theorem mover_ranger_steps_at_least_one_witness :
    1 ≤ (MoverRanger.construct Option.none 10).get_args.2.2.2 :=
  mover_ranger_steps_at_least_one (MoverRanger.construct Option.none 10)
    (MoverRangerReachable.construct Option.none 10)

/-- Invariant of the two Count spin boxes in every reachable state: the num
spinner has range 1 to 2^16 and its value stays inside it, the delay spinner
has range 0 to 3600 and its value stays inside it. -/
theorem count_spin_invariant (s : CountState) (h : CountReachable s) :
    s.num_spin.minimum = 1 ∧ s.num_spin.maximum = 2 ^ 16 ∧
    1 ≤ s.num_spin.value ∧ s.num_spin.value ≤ 2 ^ 16 ∧
    s.delay_spin.minimum = 0 ∧ s.delay_spin.maximum = 3600 ∧
    0 ≤ s.delay_spin.value ∧ s.delay_spin.value ≤ 3600 := by
  induction h with
  | construct =>
    have hd : CountState.construct.delay_spin = ⟨0, 3600, 0⟩ := by
      show MFSpin.init.setRange 0 (60 * 60) = _
      unfold MFSpin.setRange MFSpin.init clampRat
      norm_num [max_def, min_def]
    refine ⟨rfl, by decide, by decide, by decide, rfl, by rw [hd]; try decide,
      by rw [hd]; try decide, by rw [hd]; try decide⟩
  | editNum s v _ ih =>
    obtain ⟨h1, h2, _, _, h5, h6, h7, h8⟩ := ih
    refine ⟨h1, h2, ?_, ?_, h5, h6, h7, h8⟩
    · show 1 ≤ clampInt s.num_spin.minimum s.num_spin.maximum v
      rw [h1]
      exact le_max_left 1 _
    · show clampInt s.num_spin.minimum s.num_spin.maximum v ≤ 2 ^ 16
      rw [h1, h2]
      exact max_le (by decide) (min_le_left _ _)
  | editDelay s v _ ih =>
    obtain ⟨h1, h2, h3, h4, h5, h6, _, _⟩ := ih
    refine ⟨h1, h2, h3, h4, h5, h6, ?_, ?_⟩
    · show 0 ≤ clampRat s.delay_spin.minimum s.delay_spin.maximum v
      rw [h5]
      exact le_max_left 0 _
    · show clampRat s.delay_spin.minimum s.delay_spin.maximum v ≤ 3600
      rw [h5, h6]
      exact max_le (by norm_num) (min_le_left _ _)
  | toggleDelay s b _ ih => exact ih

/-- C10: in every reachable Count state, get_plan is invoked with a num
between 1 and 65536 inclusive, and with delay None when the delay spinner is
disabled, else a value between 0 and 3600 inclusive. -/
theorem count_get_plan_args_in_range (s : CountState) (h : CountReachable s) :
    1 ≤ s.get_plan_args.1 ∧ s.get_plan_args.1 ≤ 65536 ∧
    (s.delay_enabled = false → s.get_plan_args.2 = Option.none) ∧
    (∀ q : ℚ, s.get_plan_args.2 = some q → 0 ≤ q ∧ q ≤ 3600) := by
  obtain ⟨_, _, h3, h4, _, _, h7, h8⟩ := count_spin_invariant s h
  refine ⟨h3, h4, ?_, ?_⟩
  · intro hd
    simp [CountState.get_plan_args, hd]
  · intro q hq
    by_cases hd : s.delay_enabled
    · have : some s.delay_spin.value = some q := by
        simpa [CountState.get_plan_args, hd] using hq
      obtain rfl := Option.some.inj this
      exact ⟨h7, h8⟩
    · simp [CountState.get_plan_args, hd] at hq

/-- Witness for C10: the freshly constructed Count widget. -/
theorem count_get_plan_args_in_range_witness :
    1 ≤ CountState.construct.get_plan_args.1 ∧
    CountState.construct.get_plan_args.1 ≤ 65536 ∧
    (CountState.construct.delay_enabled = false →
      CountState.construct.get_plan_args.2 = Option.none) ∧
    (∀ q : ℚ, CountState.construct.get_plan_args.2 = some q → 0 ≤ q ∧ q ≤ 3600) :=
  count_get_plan_args_in_range CountState.construct CountReachable.construct

/-- Membership in the invalid list built by the factory is exactly equality
with another row of the column. -/
theorem mem_invalid_list_iff (column_values : List String) (cur_row : Nat) (s : String) :
    s ∈ (table_unique_mtext_factory column_values cur_row).invalid_list ↔
      ∃ r, r < column_values.length ∧ r ≠ cur_row ∧ column_values.get? r = some s := by
  unfold table_unique_mtext_factory
  rw [List.mem_filterMap]
  constructor
  · rintro ⟨r, hr, hf⟩
    rw [List.mem_range] at hr
    by_cases hc : r = cur_row
    · rw [if_pos hc] at hf
      exact absurd hf (by simp)
    · rw [if_neg hc] at hf
      exact ⟨r, hr, hc, hf⟩
  · rintro ⟨r, hr, hc, hg⟩
    exact ⟨r, List.mem_range.mpr hr, by rw [if_neg hc]; exact hg⟩

/-- C4: the validator built by table_unique_mtext_factory returns Invalid
exactly on input strings equal to the value of some other row of the column,
and Acceptable on every other string — in particular on a string equal to
the own value of the edited row when no other row holds it. -/
theorem unique_validator_rejects_exactly_other_rows
    (column_values : List String) (cur_row : Nat) (s : String) (pos : Nat) :
    ((∃ r, r < column_values.length ∧ r ≠ cur_row ∧ column_values.get? r = some s) →
      ((table_unique_mtext_factory column_values cur_row).validate s pos).1
        = QValidatorState.Invalid) ∧
    ((¬∃ r, r < column_values.length ∧ r ≠ cur_row ∧ column_values.get? r = some s) →
      ((table_unique_mtext_factory column_values cur_row).validate s pos).1
        = QValidatorState.Acceptable) ∧
    (column_values.get? cur_row = some s →
      (∀ r, r < column_values.length → r ≠ cur_row → column_values.get? r ≠ some s) →
      ((table_unique_mtext_factory column_values cur_row).validate s pos).1
        = QValidatorState.Acceptable) := by
  refine ⟨?_, ?_, ?_⟩
  · intro hex
    have hmem := (mem_invalid_list_iff column_values cur_row s).mpr hex
    simp [UniqueValidator.validate, hmem]
  · intro hnex
    have hmem : s ∉ (table_unique_mtext_factory column_values cur_row).invalid_list :=
      fun hc => hnex ((mem_invalid_list_iff column_values cur_row s).mp hc)
    simp [UniqueValidator.validate, hmem]
  · intro _ hothers
    have hmem : s ∉ (table_unique_mtext_factory column_values cur_row).invalid_list := by
      intro hc
      obtain ⟨r, hr, hrc, hg⟩ := (mem_invalid_list_iff column_values cur_row s).mp hc
      exact hothers r hr hrc hg
    simp [UniqueValidator.validate, hmem]

/-- Witness for C4: column values a, b, c with row 1 being edited; the other
rows hold a and c, so a is rejected while b (row 1 own value) is accepted. -/
theorem unique_validator_rejects_exactly_other_rows_witness :
    ((table_unique_mtext_factory ["a", "b", "c"] 1).validate "a" 0).1
      = QValidatorState.Invalid ∧
    ((table_unique_mtext_factory ["a", "b", "c"] 1).validate "b" 0).1
      = QValidatorState.Acceptable := by
  constructor
  · exact (unique_validator_rejects_exactly_other_rows ["a", "b", "c"] 1 "a" 0).1
      ⟨0, by decide, by decide, rfl⟩
  · exact (unique_validator_rejects_exactly_other_rows ["a", "b", "c"] 1 "b" 0).2.2
      rfl (by decide)

/-- Elements of namedInsert come from the accumulator or carry the inserted
device. -/
theorem namedInsert_mem (acc : List (String × Device)) (k : String) (d : Device)
    (p : String × Device) (hp : p ∈ namedInsert acc k d) : p ∈ acc ∨ p.2 = d := by
  induction acc with
  | nil =>
    simp [namedInsert] at hp
    exact Or.inr (by rw [hp])
  | cons q rest ih =>
    obtain ⟨k0, d0⟩ := q
    by_cases h0 : k0 = k
    · rw [namedInsert, if_pos h0] at hp
      rcases List.mem_cons.mp hp with hq | hq
      · exact Or.inr (by rw [hq])
      · exact Or.inl (List.mem_cons_of_mem _ hq)
    · rw [namedInsert, if_neg h0] at hp
      rcases List.mem_cons.mp hp with hq | hq
      · exact Or.inl (hq ▸ List.mem_cons_self _ _)
      · rcases ih hq with h | h
        · exact Or.inl (List.mem_cons_of_mem _ h)
        · exact Or.inr h

/-- When the inserted key is absent from the accumulator, namedInsert is an
append. -/
theorem namedInsert_append (acc : List (String × Device)) (k : String) (d : Device)
    (h : ∀ p ∈ acc, p.1 ≠ k) : namedInsert acc k d = acc ++ [(k, d)] := by
  induction acc with
  | nil => rfl
  | cons q rest ih =>
    obtain ⟨k0, d0⟩ := q
    have hk0 : k0 ≠ k := h (k0, d0) (List.mem_cons_self _ _)
    rw [namedInsert, if_neg hk0, ih (fun p hp => h p (List.mem_cons_of_mem _ hp))]
    rfl

/-- Every device held in the items dict built by the factory fold avoids the
selected values, provided the accumulator already does. -/
theorem combo_fold_not_selected (rows : List Dict) (key : String) :
    ∀ (opts : List Device) (acc : List (String × Device)),
      (∀ p ∈ acc, Val.device p.2 ∉ selected_items rows key) →
      ∀ p ∈ opts.foldl
          (fun acc item =>
            if Val.device item ∈ selected_items rows key then acc
            else namedInsert acc item.name item) acc,
        Val.device p.2 ∉ selected_items rows key := by
  intro opts
  induction opts with
  | nil => intro acc hacc p hp; exact hacc p hp
  | cons d rest ih =>
    intro acc hacc p hp
    by_cases hsel : Val.device d ∈ selected_items rows key
    · rw [List.foldl_cons, if_pos hsel] at hp
      exact ih acc hacc p hp
    · rw [List.foldl_cons, if_neg hsel] at hp
      refine ih (namedInsert acc d.name d) ?_ p hp
      intro q hq
      rcases namedInsert_mem acc d.name d q hq with h | h
      · exact hacc q h
      · rw [h]; exact hsel

/-- C9: the combo editor built by table_mcombobox_factory never offers a
device whose value is (truthily) selected under the key in any row of the
table — the row being edited included. -/
theorem combo_factory_never_offers_selected
    (option_list : List Device) (rows : List Dict) (key : String) (d : Device)
    (h : Val.device d ∈ selected_items rows key) :
    d ∉ comboOffered option_list rows key := by
  intro hd
  obtain ⟨p, hp, hpd⟩ := List.mem_map.mp hd
  have := combo_fold_not_selected rows key option_list [] (by simp) p hp
  rw [hpd] at this
  exact this h

/-- Witness for C9: with the only row having selected M1, M1 is not offered
by the editor (even though the only row is the one being edited). -/
theorem combo_factory_never_offers_selected_witness :
    Device.mk "M1" Option.none ∉
      comboOffered [Device.mk "M1" Option.none, Device.mk "M2" Option.none]
        [[("motor", Val.device (Device.mk "M1" Option.none))]] "motor" :=
  combo_factory_never_offers_selected _ _ "motor" (Device.mk "M1" Option.none)
    (by decide)

/-- C5 counterexample, in two parts, one per failure of the exactness claim.
Part one (own row): a table with a single row — necessarily the row being
edited — that has selected M1; no other row exists, yet the factory does not
offer M1, so the offered options are not exactly the candidates unselected
by other rows.  Part two (name collapse): two distinct candidate devices
share the name D and no row of an empty table selects anything, so every
candidate is unselected by every row; yet the items dict, keyed by name,
collapses them and the first candidate is not offered. -/
theorem combo_factory_excludes_own_row_counterexample :
    ([[("motor", Val.device (Device.mk "M1" Option.none))]].length = 1 ∧
     table_mcombobox_factory
         [Device.mk "M1" Option.none, Device.mk "M2" Option.none]
         [[("motor", Val.device (Device.mk "M1" Option.none))]] "motor"
       = [("M2", Device.mk "M2" Option.none)] ∧
     Device.mk "M1" Option.none ∉
       comboOffered [Device.mk "M1" Option.none, Device.mk "M2" Option.none]
         [[("motor", Val.device (Device.mk "M1" Option.none))]] "motor") ∧
    (selected_items ([] : List Dict) "motor" = [] ∧
     table_mcombobox_factory
         [Device.mk "D" (some (0, 1)), Device.mk "D" Option.none] [] "motor"
       = [("D", Device.mk "D" Option.none)] ∧
     Device.mk "D" (some (0, 1)) ∉
       comboOffered [Device.mk "D" (some (0, 1)), Device.mk "D" Option.none] [] "motor") := by
  decide

/-- The factory fold appends exactly the unselected options when device
names are distinct and disjoint from the accumulator keys. -/
theorem combo_fold_filter (rows : List Dict) (key : String) :
    ∀ (opts : List Device) (acc : List (String × Device)),
      (opts.map Device.name).Nodup →
      (∀ d ∈ opts, ∀ p ∈ acc, p.1 ≠ d.name) →
      opts.foldl
          (fun acc item =>
            if Val.device item ∈ selected_items rows key then acc
            else namedInsert acc item.name item) acc
        = acc ++ (opts.filter
            (fun d => decide (Val.device d ∉ selected_items rows key))).map
              (fun d => (d.name, d)) := by
  intro opts
  induction opts with
  | nil => intro acc _ _; simp
  | cons d rest ih =>
    intro acc hnodup hdisj
    have hnodup1 : (rest.map Device.name).Nodup := (List.nodup_cons.mp hnodup).2
    have hdname : d.name ∉ rest.map Device.name := (List.nodup_cons.mp hnodup).1
    by_cases hsel : Val.device d ∈ selected_items rows key
    · rw [List.foldl_cons, if_pos hsel,
        ih acc hnodup1 (fun d1 h1 p hp => hdisj d1 (List.mem_cons_of_mem _ h1) p hp)]
      have : (List.filter (fun d => decide (Val.device d ∉ selected_items rows key))
          (d :: rest)) = rest.filter (fun d => decide (Val.device d ∉ selected_items rows key)) := by
        rw [List.filter_cons]
        simp [hsel]
      rw [this]
    · have hins : namedInsert acc d.name d = acc ++ [(d.name, d)] :=
        namedInsert_append acc d.name d
          (fun p hp => hdisj d (List.mem_cons_self _ _) p hp)
      have hdisj1 : ∀ d1 ∈ rest, ∀ p ∈ acc ++ [(d.name, d)], p.1 ≠ d1.name := by
        intro d1 h1 p hp
        rcases List.mem_append.mp hp with hp | hp
        · exact hdisj d1 (List.mem_cons_of_mem _ h1) p hp
        · have : p = (d.name, d) := by simpa using hp
          rw [this]
          intro hc
          apply hdname
          rw [show d.name = d1.name from hc]
          exact List.mem_map_of_mem Device.name h1
      rw [List.foldl_cons, if_neg hsel, hins, ih (acc ++ [(d.name, d)]) hnodup1 hdisj1]
      have : (List.filter (fun d => decide (Val.device d ∉ selected_items rows key))
          (d :: rest)) = d :: rest.filter (fun d => decide (Val.device d ∉ selected_items rows key)) := by
        rw [List.filter_cons]
        simp [hsel]
      rw [this]
      simp

/-- C5 (amended): when the candidate devices have distinct names, the combo
editor offers exactly the candidates not truthily selected under the key in
ANY row of the table — the row being edited included — so the editor never
offers an option selected anywhere and no two rows can select the same
device. -/
theorem combo_factory_offers_exactly_unselected
    (option_list : List Device) (rows : List Dict) (key : String)
    (h : (option_list.map Device.name).Nodup) :
    comboOffered option_list rows key
      = option_list.filter (fun d => decide (Val.device d ∉ selected_items rows key)) := by
  unfold comboOffered table_mcombobox_factory
  rw [combo_fold_filter rows key option_list [] h (by simp)]
  rw [List.nil_append, List.map_map]
  have hid : (Prod.snd ∘ fun d : Device => (d.name, d)) = id := rfl
  rw [hid, List.map_id]

/-- Witness for C5 (amended): M1 selected in the only row, M1 and M2 the
candidates; the offered list is exactly the filtered candidate list. -/
theorem combo_factory_offers_exactly_unselected_witness :
    comboOffered [Device.mk "M1" Option.none, Device.mk "M2" Option.none]
        [[("motor", Val.device (Device.mk "M1" Option.none))]] "motor"
      = [Device.mk "M1" Option.none, Device.mk "M2" Option.none].filter
          (fun d => decide (Val.device d ∉
            selected_items [[("motor", Val.device (Device.mk "M1" Option.none))]] "motor")) :=
  combo_factory_offers_exactly_unselected
    [Device.mk "M1" Option.none, Device.mk "M2" Option.none]
    [[("motor", Val.device (Device.mk "M1" Option.none))]] "motor" (by decide)

/-- Reduction of bs_motor_update_coupled_parameters when the requested
update carries a motor with non-default limits. -/
theorem bs_motor_update_unfold_motor (req cur : Dict) (row : Int) (m : Val) (lo hi : ℚ)
    (hm : dictGet req "motor" = some m) (hlim : limitsOf m = (lo, hi))
    (hnd : ¬((lo, hi) = ((0 : ℚ), (0 : ℚ)))) :
    bs_motor_update_coupled_parameters req cur row
      = (resetFold cur lo hi (posCols.filter (fun n => dictMember cur n))
          (dictMerge cur req)).map (fun d => snakeUpdate d row) := by
  simp only [bs_motor_update_coupled_parameters, hm]
  rw [hlim, if_neg hnd]

/-- C1 (amended): when the requested update selects a motor with non-default
limits, every position column (start, stop, value) of the current row whose
numeric value lies outside those limits is unset (None) in the merged row;
a position column whose value lies inside the limits, and which the
requested update does not itself assign, keeps its current value. -/
theorem bs_motor_update_resets_outside_new_limits
    (req cur : Dict) (row : Int) (m : Val) (lo hi : ℚ)
    (hm : dictGet req "motor" = some m)
    (hlim : limitsOf m = (lo, hi))
    (hnd : ¬((lo, hi) = ((0 : ℚ), (0 : ℚ))))
    (hnum : ∀ c ∈ posCols, dictMember cur c = true → ∃ q : ℚ, dictGet cur c = some (Val.num q)) :
    ∃ d, bs_motor_update_coupled_parameters req cur row = .ok d ∧
      (∀ c ∈ posCols, ∀ q : ℚ, dictGet cur c = some (Val.num q) → (q < lo ∨ hi < q) →
        dictGet d c = some Val.none) ∧
      (∀ c ∈ posCols, ∀ q : ℚ, dictGet cur c = some (Val.num q) → lo ≤ q → q ≤ hi →
        dictMember req c = false → dictGet d c = some (Val.num q)) := by
  have hnumL : ∀ c ∈ posCols.filter (fun n => dictMember cur n),
      ∃ q : ℚ, dictGet cur c = some (Val.num q) := by
    intro c hc
    obtain ⟨hcp, hcm⟩ := List.mem_filter.mp hc
    exact hnum c hcp hcm
  obtain ⟨d0, hok, h1, h2⟩ :=
    resetFold_spec cur lo hi (posCols.filter (fun n => dictMember cur n))
      (dictMerge cur req) hnumL
  have hsnake : ∀ c ∈ posCols, c ≠ "snake" := by decide
  refine ⟨snakeUpdate d0 row, ?_, ?_, ?_⟩
  · rw [bs_motor_update_unfold_motor req cur row m lo hi hm hlim hnd, hok]
    rfl
  · intro c hc q hq hout
    rw [snakeUpdate_get_ne d0 row c (hsnake c hc)]
    have hcm : dictMember cur c = true := by simp [dictMember, hq]
    exact h1 c (List.mem_filter.mpr ⟨hc, hcm⟩) q hq hout
  · intro c hc q hq hlo hhi hnm
    rw [snakeUpdate_get_ne d0 row c (hsnake c hc)]
    rw [h2 c (Or.inr ⟨q, hq, hlo, hhi⟩)]
    rw [dictGet_merge_not_mem req cur c hnm]
    exact hq

/-- Witness for C1: the spec example — current row motor M1 (limits (0, 10)),
start 5, stop 15; requested update selects M2 (limits (0, 10)); the merged
row keeps start 5 and unsets stop. -/
theorem bs_motor_update_resets_outside_new_limits_witness :
    ∃ d, bs_motor_update_coupled_parameters
        [("motor", Val.device (Device.mk "M2" (some (0, 10))))]
        [("motor", Val.device (Device.mk "M1" (some (0, 10)))),
         ("start", Val.num 5), ("stop", Val.num 15)] 0
      = .ok d ∧
      dictGet d "stop" = some Val.none ∧ dictGet d "start" = some (Val.num 5) := by
  obtain ⟨d, hok, h1, h2⟩ :=
    bs_motor_update_resets_outside_new_limits
      [("motor", Val.device (Device.mk "M2" (some (0, 10))))]
      [("motor", Val.device (Device.mk "M1" (some (0, 10)))),
       ("start", Val.num 5), ("stop", Val.num 15)] 0
      (Val.device (Device.mk "M2" (some (0, 10)))) 0 10
      (by decide) (by decide) (by decide)
      (by
        intro c hc hmem
        simp only [posCols, List.mem_cons, List.not_mem_nil, or_false] at hc
        rcases hc with rfl | rfl | rfl
        · exact ⟨5, by decide⟩
        · exact ⟨15, by decide⟩
        · exact absurd hmem (by decide))
  refine ⟨d, hok, ?_, ?_⟩
  · exact h1 "stop" (by decide) 15 (by decide) (Or.inr (by decide))
  · exact h2 "start" (by decide) 5 (by decide) (by decide) (by decide) (by decide)

/-- C3: whenever bs_motor_update_coupled_parameters returns a merged row
containing a snake key, the snake value is None for row 0 regardless of the
request, and for a positive row a falsy merged snake value is the boolean
False. -/
theorem bs_motor_update_snake_rules (req cur : Dict) (row : Int) (d : Dict)
    (h : bs_motor_update_coupled_parameters req cur row = .ok d)
    (hs : dictMember d "snake" = true) :
    (row = 0 → dictGet d "snake" = some Val.none) ∧
    (0 < row → pyTruthy ((dictGet d "snake").getD Val.none) = false →
      dictGet d "snake" = some (Val.bool false)) := by
  simp only [bs_motor_update_coupled_parameters] at h
  obtain ⟨d0, _, hd⟩ := exceptMap_ok h
  subst hd
  by_cases hm0 : dictMember d0 "snake" = true
  · constructor
    · intro hr
      subst hr
      have hb : snakeUpdate d0 0 = dictSet d0 "snake" Val.none := by
        simp [snakeUpdate, hm0]
      rw [hb]
      exact dictGet_set_self d0 "snake" Val.none
    · intro hr hfal
      have hr0 : ¬(row = 0) := by omega
      by_cases ht : pyTruthy ((dictGet d0 "snake").getD Val.none) = true
      · have hb : snakeUpdate d0 row = d0 := by simp [snakeUpdate, hm0, hr0, ht]
        rw [hb] at hfal
        simp [ht] at hfal
      · have hb : snakeUpdate d0 row = dictSet d0 "snake" (Val.bool false) := by
          simp [snakeUpdate, hm0, hr0, ht]
        rw [hb]
        exact dictGet_set_self d0 "snake" (Val.bool false)
  · have hb : snakeUpdate d0 row = d0 := by simp [snakeUpdate, hm0]
    rw [hb] at hs
    exact absurd hs hm0

/-- Witness for C3: requested snake 0 (falsy, non-boolean) on row 2 of an
empty current row yields the boolean False in the merged row. -/
theorem bs_motor_update_snake_rules_witness :
    ((2 : Int) = 0 → dictGet [("snake", Val.bool false)] "snake" = some Val.none) ∧
    (0 < (2 : Int) →
      pyTruthy ((dictGet [("snake", Val.bool false)] "snake").getD Val.none) = false →
      dictGet [("snake", Val.bool false)] "snake" = some (Val.bool false)) :=
  bs_motor_update_snake_rules [("snake", Val.num 0)] [] 2 [("snake", Val.bool false)]
    (by decide) (by decide)

/-- The stateful reset loop never writes the two argument dicts, and its
effect on the fresh dict agrees with the pure loop. -/
theorem resetFoldSt_frame (lo hi : ℚ) :
    ∀ (L : List String) (s : PyState),
      (resetFoldSt L s lo hi).1.requested_parameters = s.requested_parameters ∧
      (resetFoldSt L s lo hi).1.current_parameters = s.current_parameters ∧
      (match (resetFoldSt L s lo hi).2 with
       | some e => resetFold s.current_parameters lo hi L s.new_parameters = .error e
       | Option.none => resetFold s.current_parameters lo hi L s.new_parameters
           = .ok (resetFoldSt L s lo hi).1.new_parameters) := by
  intro L
  induction L with
  | nil => intro s; exact ⟨rfl, rfl, rfl⟩
  | cons c rest ih =>
    intro s
    cases hchk : checkOutside ((dictGet s.current_parameters c).getD Val.none) lo hi with
    | error e =>
      have hSt : resetFoldSt (c :: rest) s lo hi = (s, some e) := by
        simp [resetFoldSt, hchk]
      rw [hSt]
      refine ⟨rfl, rfl, ?_⟩
      show resetFold s.current_parameters lo hi (c :: rest) s.new_parameters = .error e
      simp [resetFold, hchk, Bind.bind, Except.bind]
    | ok b =>
      have hSt : resetFoldSt (c :: rest) s lo hi
          = resetFoldSt rest
              (if b then { s with new_parameters := dictSet s.new_parameters c Val.none }
               else s) lo hi := by
        simp [resetFoldSt, hchk]
      set s1 : PyState :=
        if b then { s with new_parameters := dictSet s.new_parameters c Val.none } else s
        with hs1
      have hreq : s1.requested_parameters = s.requested_parameters := by
        cases b <;> simp [hs1]
      have hcur : s1.current_parameters = s.current_parameters := by
        cases b <;> simp [hs1]
      obtain ⟨ih1, ih2, ih3⟩ := ih s1
      rw [hSt]
      refine ⟨ih1.trans hreq, ih2.trans hcur, ?_⟩
      have hRF : resetFold s.current_parameters lo hi (c :: rest) s.new_parameters
          = resetFold s1.current_parameters lo hi rest s1.new_parameters := by
        rw [hcur]
        cases b <;> simp [resetFold, hchk, Bind.bind, Except.bind, hs1]
      rw [hRF]
      exact ih3

/-- C6: bs_motor_update_coupled_parameters is pure — threading the caller
dicts through every statement of the body returns them unchanged, and the
returned merged row (or exception) is exactly the function of the three
arguments. -/
theorem bs_motor_update_is_pure (req cur : Dict) (row : Int) :
    statefulRun req cur row = (req, cur, bs_motor_update_coupled_parameters req cur row) := by
  cases hm : dictGet req "motor" with
  | none =>
    simp [statefulRun, bs_motor_update_coupled_parameters, hm, Except.map]
  | some motor =>
    by_cases hl : limitsOf motor = ((0 : ℚ), (0 : ℚ))
    · simp [statefulRun, bs_motor_update_coupled_parameters, hm, hl, Except.map]
    · have hl0 : ¬(limitsOf motor = (0 : ℚ × ℚ)) := by
        intro hc
        exact hl (by rw [hc]; rfl)
      obtain ⟨h1, h2, h3⟩ :=
        resetFoldSt_frame (limitsOf motor).1 (limitsOf motor).2
          (posCols.filter (fun n => dictMember cur n)) ⟨req, cur, dictMerge cur req⟩
      rcases hSt : resetFoldSt (posCols.filter (fun n => dictMember cur n))
          ⟨req, cur, dictMerge cur req⟩ (limitsOf motor).1 (limitsOf motor).2 with ⟨s1, err⟩
      rw [hSt] at h1 h2 h3
      cases err with
      | none =>
        simp only at h1 h2 h3
        simp [statefulRun, bs_motor_update_coupled_parameters, hm, hl, hl0, hSt, h1, h2, h3,
          Except.map]
      | some e =>
        simp only at h1 h2 h3
        simp [statefulRun, bs_motor_update_coupled_parameters, hm, hl, hl0, hSt, h1, h2, h3,
          Except.map]

end BlueskyUI
